import Mathlib

/-
Verification of the golf-shaft ingestion pipeline: a shallow embedding of
src/ingestion/schemas.py, src/ingestion/normalizer.py and
src/ingestion/load_data.py, followed by theorems about the embedded code.
Python floats are modelled as rationals, raw spreadsheet cells as a small
value type (null / NaN / string / number), and fallible code as Option/Except.
-/

namespace GolfShaft

/-- Characters removed by Python str.strip with no argument (ASCII whitespace). -/
def isPySpace (c : Char) : Bool :=
  c == ' ' || c == '\t' || c == '\n' || c == '\r' || c == '\x0b' || c == '\x0c'

/-- Model of Python str.strip(): leading and trailing whitespace removed. -/
def pyStrip (s : String) : String :=
  String.mk (((s.toList.dropWhile isPySpace).reverse.dropWhile isPySpace).reverse)

/-- Model of Python str.lower() (ASCII model; the data is ASCII). -/
def pyLower (s : String) : String :=
  String.mk (s.toList.map Char.toLower)

/-- Model of Python str.replace applied with a single-space pattern and an
empty replacement: every space character removed. -/
def removeSpaces (s : String) : String :=
  String.mk (s.toList.filter (fun c => c != ' '))

/-- ClubType enum of schemas.py. -/
inductive ClubType
  | WOODS | FAIRWAY | HYBRID | IRON | WEDGE | PUTTER
  deriving DecidableEq, Repr

/-- Value string of each ClubType member. -/
def ClubType.value : ClubType → String
  | .WOODS => "woods"
  | .FAIRWAY => "fairway"
  | .HYBRID => "hybrid"
  | .IRON => "iron"
  | .WEDGE => "wedge"
  | .PUTTER => "putter"

def ClubType.all : List ClubType :=
  [.WOODS, .FAIRWAY, .HYBRID, .IRON, .WEDGE, .PUTTER]

/-- Pydantic coercion of a string into the ClubType str-enum: lookup by value. -/
def ClubType.parse (s : String) : Option ClubType :=
  ClubType.all.find? (fun c => c.value == s)

/-- Flex enum of schemas.py. -/
inductive Flex
  | LADIES | SENIOR | REGULAR | STIFF | X_STIFF | TX
  deriving DecidableEq, Repr

/-- Value string of each Flex member. -/
def Flex.value : Flex → String
  | .LADIES => "Ladies"
  | .SENIOR => "Senior"
  | .REGULAR => "Regular"
  | .STIFF => "Stiff"
  | .X_STIFF => "X-Stiff"
  | .TX => "TX"

def Flex.all : List Flex := [.LADIES, .SENIOR, .REGULAR, .STIFF, .X_STIFF, .TX]

def Flex.parse (s : String) : Option Flex :=
  Flex.all.find? (fun c => c.value == s)

/-- LaunchProfile enum of schemas.py. -/
inductive LaunchProfile
  | LOW | LOW_MID | MID | MID_HIGH | HIGH
  deriving DecidableEq, Repr

def LaunchProfile.value : LaunchProfile → String
  | .LOW => "Low"
  | .LOW_MID => "Low-Mid"
  | .MID => "Mid"
  | .MID_HIGH => "Mid-High"
  | .HIGH => "High"

def LaunchProfile.all : List LaunchProfile := [.LOW, .LOW_MID, .MID, .MID_HIGH, .HIGH]

def LaunchProfile.parse (s : String) : Option LaunchProfile :=
  LaunchProfile.all.find? (fun c => c.value == s)

/-- SpinProfile enum of schemas.py. -/
inductive SpinProfile
  | LOW | LOW_MID | MID | MID_HIGH | HIGH
  deriving DecidableEq, Repr

def SpinProfile.value : SpinProfile → String
  | .LOW => "Low"
  | .LOW_MID => "Low-Mid"
  | .MID => "Mid"
  | .MID_HIGH => "Mid-High"
  | .HIGH => "High"

def SpinProfile.all : List SpinProfile := [.LOW, .LOW_MID, .MID, .MID_HIGH, .HIGH]

def SpinProfile.parse (s : String) : Option SpinProfile :=
  SpinProfile.all.find? (fun c => c.value == s)

/-- TipStiffness enum of schemas.py. -/
inductive TipStiffness
  | SOFT | MEDIUM | FIRM | VERY_FIRM
  deriving DecidableEq, Repr

def TipStiffness.value : TipStiffness → String
  | .SOFT => "Soft"
  | .MEDIUM => "Medium"
  | .FIRM => "Firm"
  | .VERY_FIRM => "Very Firm"

def TipStiffness.all : List TipStiffness := [.SOFT, .MEDIUM, .FIRM, .VERY_FIRM]

def TipStiffness.parse (s : String) : Option TipStiffness :=
  TipStiffness.all.find? (fun c => c.value == s)

/-- Kickpoint enum of schemas.py. -/
inductive Kickpoint
  | LOW | LOW_MID | MID | MID_HIGH | HIGH
  deriving DecidableEq, Repr

def Kickpoint.value : Kickpoint → String
  | .LOW => "Low"
  | .LOW_MID => "Low-Mid"
  | .MID => "Mid"
  | .MID_HIGH => "Mid-High"
  | .HIGH => "High"

def Kickpoint.all : List Kickpoint := [.LOW, .LOW_MID, .MID, .MID_HIGH, .HIGH]

def Kickpoint.parse (s : String) : Option Kickpoint :=
  Kickpoint.all.find? (fun c => c.value == s)

/-- FLEX_MAP of normalizer.py, in source order. -/
def FLEX_MAP : List (String × Flex) :=
  [("l", .LADIES), ("ladies", .LADIES),
   ("a", .SENIOR), ("sr", .SENIOR), ("senior", .SENIOR),
   ("r", .REGULAR), ("regular", .REGULAR),
   ("s", .STIFF), ("stiff", .STIFF),
   ("x", .X_STIFF), ("xs", .X_STIFF), ("x-stiff", .X_STIFF), ("xstiff", .X_STIFF),
   ("tx", .TX), ("xxx", .TX)]

/-- LAUNCH_MAP of normalizer.py. -/
def LAUNCH_MAP : List (String × LaunchProfile) :=
  [("low", .LOW), ("low-mid", .LOW_MID), ("low/mid", .LOW_MID),
   ("mid", .MID), ("mid-high", .MID_HIGH), ("mid/high", .MID_HIGH),
   ("high", .HIGH)]

/-- SPIN_MAP of normalizer.py. -/
def SPIN_MAP : List (String × SpinProfile) :=
  [("low", .LOW), ("low-mid", .LOW_MID), ("low/mid", .LOW_MID),
   ("mid", .MID), ("mid-high", .MID_HIGH), ("mid/high", .MID_HIGH),
   ("high", .HIGH)]

/-- KICKPOINT_MAP of normalizer.py. -/
def KICKPOINT_MAP : List (String × Kickpoint) :=
  [("low", .LOW), ("low-mid", .LOW_MID), ("low/mid", .LOW_MID),
   ("mid", .MID), ("mid-high", .MID_HIGH), ("mid/high", .MID_HIGH),
   ("high", .HIGH),
   ("front", .LOW), ("front-mid", .LOW_MID), ("rear", .HIGH)]

/-- TIP_STIFF_MAP of normalizer.py. -/
def TIP_STIFF_MAP : List (String × TipStiffness) :=
  [("soft", .SOFT), ("medium", .MEDIUM), ("med", .MEDIUM),
   ("firm", .FIRM), ("very firm", .VERY_FIRM), ("extra firm", .VERY_FIRM)]

/-- The cleaning step of normalize_flex: strip, lowercase, remove spaces. -/
def cleanFlex (raw : String) : String := removeSpaces (pyLower (pyStrip raw))

/-- Character class of the regex run in normalize_flex: a digit or a dot. -/
def isDigitDot (c : Char) : Bool := c.isDigit || c == '.'

/-- Alternatives of the capture group of normalize_flex, in regex order. -/
def flexCodes : List String := ["s", "r", "x", "tx", "xs", "a", "l"]

/-- The end-anchored capture group tried at a position: each alternative, in
order, must equal the entire remainder of the string because of the anchor. -/
def matchCodeEnd (rest : List Char) : Option String :=
  flexCodes.find? (fun code => code.toList == rest)

/-- Greedy backtracking over the length of the digit run: the longest run is
tried first, releasing one character at a time, each run nonempty. -/
def tryRuns (cs : List Char) : Nat → Option String
  | 0 => none
  | k + 1 =>
    match matchCodeEnd (cs.drop (k + 1)) with
    | some code => some code
    | none => tryRuns cs k

/-- Model of the regex search in normalize_flex (a digit-dot run followed by an
end-anchored flex code): start positions are tried left to right. -/
def trySearch : List Char → Option String
  | [] => none
  | c :: cs =>
    match tryRuns (c :: cs) (((c :: cs).takeWhile isDigitDot).length) with
    | some code => some code
    | none => trySearch cs

/-- normalize_flex of normalizer.py: direct alias-table lookup on the cleaned
string, then the weight-prefixed pattern, else an error. -/
def normalize_flex (raw : String) : Except String Flex :=
  let cleaned := cleanFlex raw
  match List.lookup cleaned FLEX_MAP with
  | some f => .ok f
  | none =>
    match trySearch cleaned.toList with
    | some code => .ok ((List.lookup code FLEX_MAP).getD Flex.STIFF)
    | none => .error ("Cannot normalize flex: " ++ raw)

/-- normalize_launch of normalizer.py on its declared Optional-string domain:
null and the empty string (falsy) give absent, otherwise a table lookup of the
stripped lowercased input, absent when unrecognized. -/
def normalize_launch (raw : Option String) : Option LaunchProfile :=
  match raw with
  | none => none
  | some s => if s == "" then none else List.lookup (pyLower (pyStrip s)) LAUNCH_MAP

/-- normalize_spin of normalizer.py, same shape as normalize_launch. -/
def normalize_spin (raw : Option String) : Option SpinProfile :=
  match raw with
  | none => none
  | some s => if s == "" then none else List.lookup (pyLower (pyStrip s)) SPIN_MAP

/-- normalize_kickpoint of normalizer.py, same shape as normalize_launch. -/
def normalize_kickpoint (raw : Option String) : Option Kickpoint :=
  match raw with
  | none => none
  | some s => if s == "" then none else List.lookup (pyLower (pyStrip s)) KICKPOINT_MAP

/-- normalize_tip_stiffness of normalizer.py, same shape as normalize_launch. -/
def normalize_tip_stiffness (raw : Option String) : Option TipStiffness :=
  match raw with
  | none => none
  | some s => if s == "" then none else List.lookup (pyLower (pyStrip s)) TIP_STIFF_MAP

/-- Raw spreadsheet cell values reaching the row normalizer: Python None, a
float NaN, a string, or a number (Python floats modelled as rationals). -/
inductive RawVal
  | none
  | nan
  | str (s : String)
  | num (q : ℚ)
  deriving DecidableEq, Repr

/-- Python truthiness of a raw cell value: None and empty string and zero are
falsy; NaN is truthy in Python. -/
def truthy : RawVal → Bool
  | .none => false
  | .nan => true
  | .str s => s != ""
  | .num q => q != 0

/-- Model of Python str() on a raw cell value. -/
def pyStr : RawVal → String
  | .none => "None"
  | .nan => "nan"
  | .str s => s
  | .num q => toString q

/-- Python `a or b` on raw cell values: the first operand when truthy, else
the second. -/
def orV (a b : RawVal) : RawVal := if truthy a then a else b

/-- A raw row: a finite mapping from column names to cell values. -/
abbrev Row := List (String × RawVal)

/-- Python dict.get(k): the stored value, or None when the key is missing. -/
def Row.get (row : Row) (k : String) : RawVal :=
  (List.lookup k row).getD .none

/-- Python dict.get(k, d): the stored value, or the default when missing. -/
def Row.getD (row : Row) (k : String) (d : RawVal) : RawVal :=
  (List.lookup k row).getD d

/-- The value a resolved cell presents to the Optional-string normalizers:
strings pass through; null and NaN are treated as absent, matching the falsy
and isna checks those normalizers start with.  A truthy non-string would raise
AttributeError in the source; no claim exercises one. -/
def RawVal.asStr? : RawVal → Option String
  | .str s => some s
  | _ => Option.none

/-- Numeric value of a digit list, most significant first. -/
def digitsToNat (ds : List Char) : Nat :=
  ds.foldl (fun n c => 10 * n + (c.toNat - 48)) 0

/-- Decimal mantissa of the float grammar: digits with an optional dot,
returning the value and the unread remainder. -/
def parseDec (cs : List Char) : Option (ℚ × List Char) :=
  let ip := cs.takeWhile Char.isDigit
  let r1 := cs.drop ip.length
  match r1 with
  | '.' :: r2 =>
    let fp := r2.takeWhile Char.isDigit
    let r3 := r2.drop fp.length
    if ip.isEmpty && fp.isEmpty then none
    else some ((digitsToNat ip : ℚ) + (digitsToNat fp : ℚ) / ((10 : ℚ) ^ fp.length), r3)
  | _ => if ip.isEmpty then none else some ((digitsToNat ip : ℚ), r1)

/-- Exponent digits with an optional sign; the whole remainder must be used.
Returns the scale factor. -/
def parseExpDigits (cs : List Char) : Option ℚ :=
  let sr : Int × List Char :=
    match cs with
    | '+' :: r => (1, r)
    | '-' :: r => (-1, r)
    | r => (1, r)
  let ds := sr.2.takeWhile Char.isDigit
  if ds.isEmpty || !(sr.2.drop ds.length).isEmpty then none
  else some ((10 : ℚ) ^ (sr.1 * (digitsToNat ds : Int)))

/-- After the mantissa: either nothing, or an exponent part. -/
def parseAfterMantissa : List Char → Option ℚ
  | [] => some 1
  | 'e' :: r => parseExpDigits r
  | 'E' :: r => parseExpDigits r
  | _ => none

/-- Model of the Python float() builtin on a string: surrounding whitespace,
an optional sign, a decimal mantissa, an optional exponent.  The special
spellings (inf, nan, underscores in digits) are not modelled; no claim
exercises them. -/
def parseFloat (s : String) : Option ℚ :=
  let cs := (pyStrip s).toList
  let sc : ℚ × List Char :=
    match cs with
    | '+' :: r => (1, r)
    | '-' :: r => (-1, r)
    | r => (1, r)
  match parseDec sc.2 with
  | none => none
  | some (m, rest) =>
    match parseAfterMantissa rest with
    | none => none
    | some scale => some (sc.1 * m * scale)

/-- safe_float of normalizer.py: None for null and NaN, numbers pass through,
strings are parsed, anything unparseable gives None; never raises. -/
def safe_float : RawVal → Option ℚ
  | .none => none
  | .nan => none
  | .num q => some q
  | .str s => parseFloat s

/-- The field assignment handed to the ShaftSpec constructor.  Enum-valued
fields are carried as value strings, the way they arrive from a JSON load and
the way pydantic validates membership of the str-enums; the row normalizer
passes the value string of the enum member it computed. -/
structure ShaftSpecInput where
  manufacturer : String
  model : String
  generation : Option String := none
  club_type : String
  flex : String
  weight_grams : ℚ
  length_inches : Option ℚ := none
  torque_degrees : Option ℚ := none
  launch : Option String := none
  spin : Option String := none
  butt_diameter_inches : Option ℚ := none
  tip_diameter_inches : Option ℚ := none
  tip_stiff : Option String := none
  kickpoint : Option String := none
  material : String := "graphite"
  msrp_usd : Option ℚ := none
  deriving DecidableEq, Repr

/-- ShaftSpec of schemas.py: the validated record, immutable once built. -/
structure ShaftSpec where
  manufacturer : String
  model : String
  generation : Option String
  club_type : ClubType
  flex : Flex
  weight_grams : ℚ
  length_inches : Option ℚ
  torque_degrees : Option ℚ
  launch : Option LaunchProfile
  spin : Option SpinProfile
  butt_diameter_inches : Option ℚ
  tip_diameter_inches : Option ℚ
  tip_stiff : Option TipStiffness
  kickpoint : Option Kickpoint
  material : String
  msrp_usd : Option ℚ
  deriving DecidableEq, Repr

/-- Validation of an optional string against an enum parse, pydantic style:
absent passes, present must be a member value. -/
def optParse {α : Type} (p : String → Option α) : Option String → Option (Option α)
  | none => some none
  | some s => (p s).map some

/-- Range check of an optional numeric field: absent passes. -/
def optOk (p : ℚ → Bool) : Option ℚ → Bool
  | none => true
  | some q => p q

/-- Field constraints of ShaftSpec: min_length 1 on the raw manufacturer and
model strings (pydantic checks the constraint before the strip validator,
which runs in after mode), the open weight range, and the optional ranges of
length, torque and msrp. -/
def constraintsOk (i : ShaftSpecInput) : Bool :=
  !(i.manufacturer == "") && !(i.model == "")
    && decide (0 < i.weight_grams) && decide (i.weight_grams < 300)
    && optOk (fun l => decide (0 < l) && decide (l < 60)) i.length_inches
    && optOk (fun t => decide (0 ≤ t) && decide (t < 15)) i.torque_degrees
    && optOk (fun m => decide (0 ≤ m)) i.msrp_usd

/-- Construction of a ShaftSpec, modelling pydantic validation: enum fields
must parse to members, the numeric constraints must hold, and the after-mode
validator strips manufacturer and model before storing. -/
def mkShaftSpec (i : ShaftSpecInput) : Option ShaftSpec := do
  let ct ← ClubType.parse i.club_type
  let fx ← Flex.parse i.flex
  let la ← optParse LaunchProfile.parse i.launch
  let sp ← optParse SpinProfile.parse i.spin
  let ts ← optParse TipStiffness.parse i.tip_stiff
  let kp ← optParse Kickpoint.parse i.kickpoint
  if constraintsOk i then
    some {
        manufacturer := pyStrip i.manufacturer
        model := pyStrip i.model
        generation := i.generation
        club_type := ct
        flex := fx
        weight_grams := i.weight_grams
        length_inches := i.length_inches
        torque_degrees := i.torque_degrees
        launch := la
        spin := sp
        butt_diameter_inches := i.butt_diameter_inches
        tip_diameter_inches := i.tip_diameter_inches
        tip_stiff := ts
        kickpoint := kp
        material := i.material
        msrp_usd := i.msrp_usd }
  else none

/-- display_name property of ShaftSpec: manufacturer, model, the generation
when truthy (present and nonempty), and the flex value, space separated. -/
def ShaftSpec.display_name (s : ShaftSpec) : String :=
  let gen := match s.generation with
    | some g => if g == "" then "" else " " ++ g
    | none => ""
  s.manufacturer ++ " " ++ s.model ++ gen ++ " " ++ s.flex.value

/-- Model of spec.model_dump(mode json): each field as it appears in the
persisted JSON object, enums as their value strings. -/
def dumpSpec (s : ShaftSpec) : ShaftSpecInput where
  manufacturer := s.manufacturer
  model := s.model
  generation := s.generation
  club_type := s.club_type.value
  flex := s.flex.value
  weight_grams := s.weight_grams
  length_inches := s.length_inches
  torque_degrees := s.torque_degrees
  launch := s.launch.map LaunchProfile.value
  spin := s.spin.map SpinProfile.value
  butt_diameter_inches := s.butt_diameter_inches
  tip_diameter_inches := s.tip_diameter_inches
  tip_stiff := s.tip_stiff.map TipStiffness.value
  kickpoint := s.kickpoint.map Kickpoint.value
  material := s.material
  msrp_usd := s.msrp_usd

/-- Model resolution of normalize_row: the alias chain over model, shaft,
name, product with the literal Unknown fallback, then str and strip. -/
def resolvedModel (row : Row) : String :=
  pyStrip (pyStr (orV (orV (orV (orV (row.get "model") (row.get "shaft"))
    (row.get "name")) (row.get "product")) (.str "Unknown")))

/-- Generation alias chain of normalize_row. -/
def resolvedGenerationRaw (row : Row) : RawVal :=
  orV (orV (row.get "generation") (row.get "gen")) (row.get "version")

/-- Generation resolution of normalize_row: a truthy value is stringified and
stripped; a falsy value is passed to the constructor as is, so None stays
absent, an empty string stays an empty string, and a falsy number would be
rejected by the string field validation of the constructor. -/
def resolvedGeneration (row : Row) : Except String (Option String) :=
  let g := resolvedGenerationRaw row
  if truthy g then .ok (some (pyStrip (pyStr g)))
  else match g with
    | .none => .ok none
    | .str s => .ok (some s)
    | _ => .error "Input should be a valid string: generation"

/-- Flex alias chain of normalize_row, with the literal S fallback, then str. -/
def resolvedFlexRaw (row : Row) : String :=
  pyStr (orV (orV (orV (row.get "flex") (row.get "stiffness")) (row.get "Flex"))
    (.str "S"))

/-- Weight alias chain of normalize_row through safe_float. -/
def resolvedWeight (row : Row) : Option ℚ :=
  safe_float (orV (orV (row.get "weight") (row.get "weight_grams")) (row.get "wt"))

/-- Length alias chain of normalize_row through safe_float. -/
def resolvedLength (row : Row) : Option ℚ :=
  safe_float (orV (orV (row.get "length") (row.get "length_inches")) (row.get "raw_length"))

/-- Torque alias chain of normalize_row through safe_float. -/
def resolvedTorque (row : Row) : Option ℚ :=
  safe_float (orV (row.get "torque") (row.get "torque_degrees"))

/-- Launch alias chain of normalize_row through normalize_launch. -/
def resolvedLaunch (row : Row) : Option LaunchProfile :=
  normalize_launch (orV (row.get "launch") (row.get "launch_profile")).asStr?

/-- Spin alias chain of normalize_row through normalize_spin. -/
def resolvedSpin (row : Row) : Option SpinProfile :=
  normalize_spin (orV (row.get "spin") (row.get "spin_profile")).asStr?

/-- Kickpoint alias chain of normalize_row through normalize_kickpoint. -/
def resolvedKickpoint (row : Row) : Option Kickpoint :=
  normalize_kickpoint
    (orV (orV (row.get "kickpoint") (row.get "kick_point")) (row.get "bend_point")).asStr?

/-- Tip stiffness alias chain of normalize_row through normalize_tip_stiffness. -/
def resolvedTipStiff (row : Row) : Option TipStiffness :=
  normalize_tip_stiffness
    (orV (orV (row.get "tip_stiff") (row.get "tip_stiffness")) (row.get "tip")).asStr?

/-- Butt diameter alias chain of normalize_row through safe_float. -/
def resolvedButtDia (row : Row) : Option ℚ :=
  safe_float (orV (row.get "butt_diameter") (row.get "butt"))

/-- Tip diameter alias chain of normalize_row through safe_float. -/
def resolvedTipDia (row : Row) : Option ℚ :=
  safe_float (orV (row.get "tip_diameter") (row.get "tip_dia"))

/-- Material resolution of normalize_row: dict.get with the graphite default,
then str, strip, lower. -/
def resolvedMaterial (row : Row) : String :=
  pyLower (pyStrip (pyStr (row.getD "material" (.str "graphite"))))

/-- Price alias chain of normalize_row through safe_float. -/
def resolvedMsrp (row : Row) : Option ℚ :=
  safe_float (orV (orV (row.get "msrp") (row.get "msrp_usd")) (row.get "price"))

/-- The candidate field assignment normalize_row hands to the ShaftSpec
constructor once flex, weight and generation are resolved. -/
def rowInput (row : Row) (manufacturer : String) (club_type : ClubType)
    (flex : Flex) (weight : ℚ) (generation : Option String) : ShaftSpecInput where
  manufacturer := manufacturer
  model := resolvedModel row
  generation := generation
  club_type := club_type.value
  flex := flex.value
  weight_grams := weight
  length_inches := resolvedLength row
  torque_degrees := resolvedTorque row
  launch := (resolvedLaunch row).map LaunchProfile.value
  spin := (resolvedSpin row).map SpinProfile.value
  butt_diameter_inches := resolvedButtDia row
  tip_diameter_inches := resolvedTipDia row
  tip_stiff := (resolvedTipStiff row).map TipStiffness.value
  kickpoint := (resolvedKickpoint row).map Kickpoint.value
  material := resolvedMaterial row
  msrp_usd := resolvedMsrp row

/-- normalize_row of normalizer.py: resolve every field through its alias
chain, fail on an unparseable flex, fail on a missing weight, then hand the
assembled candidate to the ShaftSpec constructor; a constructor validation
failure fails the row too. -/
def normalize_row (row : Row) (manufacturer : String) (club_type : ClubType) :
    Except String ShaftSpec :=
  match normalize_flex (resolvedFlexRaw row) with
  | .error e => .error e
  | .ok flex =>
    match resolvedWeight row with
    | none => .error ("Missing weight for " ++ resolvedModel row)
    | some weight =>
      match resolvedGeneration row with
      | .error e => .error e
      | .ok generation =>
        match mkShaftSpec (rowInput row manufacturer club_type flex weight generation) with
        | some spec => .ok spec
        | none => .error ("Validation failed for " ++ resolvedModel row)

/-- normalize_dataframe of normalizer.py: each indexed row is normalized
independently; a success is appended to the result, a failure is recorded as
an indexed message.  The failure list is the diagnostic side channel the
source prints; the record list is the return value. -/
def normalize_dataframe (rows : List (Nat × Row)) (manufacturer : String)
    (club_type : ClubType) : List ShaftSpec × List String :=
  match rows with
  | [] => ([], [])
  | (idx, r) :: rest =>
    let acc := normalize_dataframe rest manufacturer club_type
    match normalize_row r manufacturer club_type with
    | .ok spec => (spec :: acc.1, acc.2)
    | .error e => (acc.1, ("Row " ++ toString idx ++ ": " ++ e) :: acc.2)

/-- The dedup loop of main in load_data.py, with the set of already seen
display names threaded through. -/
def dedupAux (seen : List String) : List ShaftSpec → List ShaftSpec
  | [] => []
  | s :: rest =>
    if s.display_name ∈ seen then dedupAux seen rest
    else s :: dedupAux (s.display_name :: seen) rest

/-- Deduplication by display_name in main of load_data.py: first occurrence
in processing order wins. -/
def dedupByDisplayName (specs : List ShaftSpec) : List ShaftSpec :=
  dedupAux [] specs

/-- Model of save_database: the JSON array written to disk, one field mapping
per record, in list order (model_dump mode json). -/
def save_database (specs : List ShaftSpec) : List ShaftSpecInput :=
  specs.map dumpSpec

/-- Model of load_database on an existing file: every stored field mapping is
passed back through the ShaftSpec constructor; a validation failure on any
item aborts the load. -/
def load_database (data : List ShaftSpecInput) : Option (List ShaftSpec) :=
  data.mapM mkShaftSpec

/-- Declarative reading of the weight-prefixed flex pattern: the string ends
in a nonempty run of digits or dots followed by one of the flex codes. -/
def EndsInDigitsCode (cs : List Char) (code : String) : Prop :=
  code ∈ flexCodes ∧
    ∃ pre ds, ds ≠ [] ∧ (∀ c ∈ ds, isDigitDot c = true) ∧
      cs = pre ++ ds ++ code.toList

/-- Data-model invariants of a stored record (spec section 3): manufacturer
and model trimmed and nonempty, weight inside the open range, and the
optional ranges of length, torque and msrp. -/
def ShaftSpec.valid (s : ShaftSpec) : Bool :=
  (pyStrip s.manufacturer == s.manufacturer) && !(s.manufacturer == "")
    && (pyStrip s.model == s.model) && !(s.model == "")
    && decide (0 < s.weight_grams) && decide (s.weight_grams < 300)
    && optOk (fun l => decide (0 < l) && decide (l < 60)) s.length_inches
    && optOk (fun t => decide (0 ≤ t) && decide (t < 15)) s.torque_degrees
    && optOk (fun m => decide (0 ≤ m)) s.msrp_usd

/-- Concrete record used in examples: a KBS Tour iron shaft. -/
def specKBS : ShaftSpec where
  manufacturer := "KBS"
  model := "Tour"
  generation := none
  club_type := .IRON
  flex := .STIFF
  weight_grams := 120
  length_inches := none
  torque_degrees := none
  launch := none
  spin := none
  butt_diameter_inches := none
  tip_diameter_inches := none
  tip_stiff := none
  kickpoint := none
  material := "steel"
  msrp_usd := none

/-- Concrete record used in examples: a Fujikura Ventus Blue TR wood shaft. -/
def specFujikura : ShaftSpec where
  manufacturer := "Fujikura"
  model := "Ventus Blue"
  generation := some "TR"
  club_type := .WOODS
  flex := .X_STIFF
  weight_grams := 67
  length_inches := some 46
  torque_degrees := some 3
  launch := some .LOW
  spin := some .LOW
  butt_diameter_inches := none
  tip_diameter_inches := none
  tip_stiff := some .FIRM
  kickpoint := some .HIGH
  material := "graphite"
  msrp_usd := some 350

/-- Baseline constructor argument used by the validation examples, mirroring
the test fixtures: every other field valid or defaulted. -/
def baseInput : ShaftSpecInput where
  manufacturer := "Test"
  model := "Test"
  club_type := "woods"
  flex := "Stiff"
  weight_grams := 60

/-! Theorems.  Helper lemmas first, then one named theorem per claim. -/

theorem lookup_mem {α β : Type} [BEq α] [LawfulBEq α] {l : List (α × β)} {k : α}
    {v : β} (h : List.lookup k l = some v) : (k, v) ∈ l := by
  obtain ⟨l₁, l₂, rfl, -⟩ := List.lookup_eq_some_iff.mp h
  simp

/-- C8: safe_float is total, returning a number or absent for every input:
absent for null, for NaN, and for every string the float grammar rejects;
a numeric input passes through. -/
theorem safe_float_spec :
    (∀ v : RawVal, safe_float v = none ∨ ∃ q, safe_float v = some q) ∧
    safe_float RawVal.none = none ∧
    safe_float RawVal.nan = none ∧
    (∀ q, safe_float (RawVal.num q) = some q) ∧
    (∀ s, parseFloat s = none → safe_float (RawVal.str s) = none) := by
  refine ⟨fun v => ?_, rfl, rfl, fun q => rfl, fun s h => h⟩
  cases h : safe_float v with
  | none => exact Or.inl rfl
  | some q => exact Or.inr ⟨q, rfl⟩

/-- C7: the launch, spin and kickpoint normalizers send null and the empty
string to absent; any input whose stripped lowercased form is a key of the
field's alias table goes to the mapped canonical value (slash forms land on
the same values as hyphen forms, and kickpoint aliases front, front-mid and
rear); any other input goes to absent instead of failing. -/
theorem qualitative_normalizers_spec :
    (normalize_launch none = none ∧ normalize_launch (some "") = none ∧
     normalize_spin none = none ∧ normalize_spin (some "") = none ∧
     normalize_kickpoint none = none ∧ normalize_kickpoint (some "") = none) ∧
    (∀ s p, List.lookup (pyLower (pyStrip s)) LAUNCH_MAP = some p →
        normalize_launch (some s) = some p) ∧
    (∀ s, List.lookup (pyLower (pyStrip s)) LAUNCH_MAP = none →
        normalize_launch (some s) = none) ∧
    (∀ s p, List.lookup (pyLower (pyStrip s)) SPIN_MAP = some p →
        normalize_spin (some s) = some p) ∧
    (∀ s, List.lookup (pyLower (pyStrip s)) SPIN_MAP = none →
        normalize_spin (some s) = none) ∧
    (∀ s p, List.lookup (pyLower (pyStrip s)) KICKPOINT_MAP = some p →
        normalize_kickpoint (some s) = some p) ∧
    (∀ s, List.lookup (pyLower (pyStrip s)) KICKPOINT_MAP = none →
        normalize_kickpoint (some s) = none) ∧
    (normalize_launch (some "Low/Mid") = normalize_launch (some "Low-Mid") ∧
     normalize_spin (some "Mid/High") = normalize_spin (some "Mid-High") ∧
     normalize_kickpoint (some "Low/Mid") = normalize_kickpoint (some "Low-Mid")) ∧
    (normalize_kickpoint (some "front") = some Kickpoint.LOW ∧
     normalize_kickpoint (some "front-mid") = some Kickpoint.LOW_MID ∧
     normalize_kickpoint (some "rear") = some Kickpoint.HIGH) := by
  refine ⟨by decide, ?_, ?_, ?_, ?_, ?_, ?_, by decide, by decide⟩
  · intro s p h
    have hs : s ≠ "" := by
      rintro rfl
      rw [show List.lookup (pyLower (pyStrip "")) LAUNCH_MAP = none from by decide] at h
      cases h
    simp [normalize_launch, hs, h]
  · intro s h
    rcases eq_or_ne s "" with rfl | hne
    · decide
    · simp [normalize_launch, hne, h]
  · intro s p h
    have hs : s ≠ "" := by
      rintro rfl
      rw [show List.lookup (pyLower (pyStrip "")) SPIN_MAP = none from by decide] at h
      cases h
    simp [normalize_spin, hs, h]
  · intro s h
    rcases eq_or_ne s "" with rfl | hne
    · decide
    · simp [normalize_spin, hne, h]
  · intro s p h
    have hs : s ≠ "" := by
      rintro rfl
      rw [show List.lookup (pyLower (pyStrip "")) KICKPOINT_MAP = none from by decide] at h
      cases h
    simp [normalize_kickpoint, hs, h]
  · intro s h
    rcases eq_or_ne s "" with rfl | hne
    · decide
    · simp [normalize_kickpoint, hne, h]

/-- C9 counterexample: a record whose generation is present but empty.  The
claimed format for a present generation would put two spaces between the
model and the flex; the code drops the falsy generation instead. -/
theorem display_name_empty_generation_cex :
    ShaftSpec.display_name { specKBS with generation := some "" } = "KBS Tour Stiff" ∧
    ({ specKBS with generation := some "" } : ShaftSpec).generation = some "" ∧
    ShaftSpec.display_name { specKBS with generation := some "" } ≠
      "KBS" ++ " " ++ "Tour" ++ " " ++ "" ++ " " ++ Flex.STIFF.value := by
  decide

/-- C9 (amended): display_name joins manufacturer, model, generation and the
flex value with single spaces when the generation is present and nonempty,
and omits the generation segment when it is absent or empty; the two example
records render as the spec's example strings. -/
theorem display_name_spec :
    (∀ s : ShaftSpec,
      (∀ g, s.generation = some g → g ≠ "" →
        s.display_name = s.manufacturer ++ " " ++ s.model ++ " " ++ g ++ " " ++ s.flex.value) ∧
      ((s.generation = none ∨ s.generation = some "") →
        s.display_name = s.manufacturer ++ " " ++ s.model ++ " " ++ s.flex.value)) ∧
    specFujikura.display_name = "Fujikura Ventus Blue TR X-Stiff" ∧
    specKBS.display_name = "KBS Tour Stiff" := by
  refine ⟨fun s => ⟨?_, ?_⟩, by decide, by decide⟩
  · intro g hg hne
    simp only [ShaftSpec.display_name, hg]
    rw [if_neg (by simpa using hne)]
    simp [String.append_assoc]
  · rintro (hg | hg) <;> simp [ShaftSpec.display_name, hg]

theorem clubType_parse_value (c : ClubType) : ClubType.parse c.value = some c := by
  cases c <;> rfl

theorem flex_parse_value (c : Flex) : Flex.parse c.value = some c := by
  cases c <;> rfl

theorem launchProfile_parse_value (c : LaunchProfile) :
    LaunchProfile.parse c.value = some c := by
  cases c <;> rfl

theorem spinProfile_parse_value (c : SpinProfile) :
    SpinProfile.parse c.value = some c := by
  cases c <;> rfl

theorem tipStiffness_parse_value (c : TipStiffness) :
    TipStiffness.parse c.value = some c := by
  cases c <;> rfl

theorem kickpoint_parse_value (c : Kickpoint) : Kickpoint.parse c.value = some c := by
  cases c <;> rfl

theorem optParse_map {α : Type} {p : String → Option α} {f : α → String}
    (hp : ∀ a, p (f a) = some a) (o : Option α) : optParse p (o.map f) = some o := by
  cases o <;> simp [optParse, hp]

theorem mkShaftSpec_fields {i : ShaftSpecInput} {s : ShaftSpec}
    (h : mkShaftSpec i = some s) :
    s.torque_degrees = i.torque_degrees ∧ s.msrp_usd = i.msrp_usd ∧
    s.length_inches = i.length_inches ∧ s.generation = i.generation ∧
    Flex.parse i.flex = some s.flex := by
  simp only [mkShaftSpec, Option.bind_eq_bind, Option.bind_eq_some] at h
  obtain ⟨ct, hct, fx, hfx, la, hla, sp, hsp, ts, hts, kp, hkp, hif⟩ := h
  split at hif
  · injection hif with h2
    subst h2
    exact ⟨rfl, rfl, rfl, rfl, hfx⟩
  · cases hif

theorem mkShaftSpec_eq_some {i : ShaftSpecInput} {ct : ClubType} {fx : Flex}
    {la : Option LaunchProfile} {sp : Option SpinProfile} {ts : Option TipStiffness}
    {kp : Option Kickpoint}
    (hct : ClubType.parse i.club_type = some ct)
    (hfx : Flex.parse i.flex = some fx)
    (hla : optParse LaunchProfile.parse i.launch = some la)
    (hsp : optParse SpinProfile.parse i.spin = some sp)
    (hts : optParse TipStiffness.parse i.tip_stiff = some ts)
    (hkp : optParse Kickpoint.parse i.kickpoint = some kp)
    (hc : constraintsOk i = true) :
    mkShaftSpec i = some {
      manufacturer := pyStrip i.manufacturer
      model := pyStrip i.model
      generation := i.generation
      club_type := ct
      flex := fx
      weight_grams := i.weight_grams
      length_inches := i.length_inches
      torque_degrees := i.torque_degrees
      launch := la
      spin := sp
      butt_diameter_inches := i.butt_diameter_inches
      tip_diameter_inches := i.tip_diameter_inches
      tip_stiff := ts
      kickpoint := kp
      material := i.material
      msrp_usd := i.msrp_usd } := by
  simp only [mkShaftSpec, Option.bind_eq_bind]
  rw [hct, Option.some_bind, hfx, Option.some_bind, hla, Option.some_bind,
    hsp, Option.some_bind, hts, Option.some_bind, hkp, Option.some_bind]
  simp [hc]

theorem normalize_row_ok_inv {row : Row} {m : String} {ct : ClubType}
    {spec : ShaftSpec} (h : normalize_row row m ct = .ok spec) :
    ∃ fx w g, normalize_flex (resolvedFlexRaw row) = .ok fx ∧
      resolvedWeight row = some w ∧ resolvedGeneration row = .ok g ∧
      mkShaftSpec (rowInput row m ct fx w g) = some spec := by
  unfold normalize_row at h
  cases hf : normalize_flex (resolvedFlexRaw row) with
  | error e => rw [hf] at h; exact absurd h (by simp)
  | ok fx =>
    cases hw : resolvedWeight row with
    | none => rw [hf, hw] at h; exact absurd h (by simp)
    | some w =>
      cases hg : resolvedGeneration row with
      | error e => rw [hf, hw, hg] at h; exact absurd h (by simp)
      | ok g =>
        cases hmk : mkShaftSpec (rowInput row m ct fx w g) with
        | none =>
          rw [hf, hw, hg] at h
          simp only [hmk] at h
          exact absurd h (by simp)
        | some s2 =>
          rw [hf, hw, hg] at h
          simp only [hmk] at h
          injection h with h2
          subst h2
          exact ⟨fx, w, g, rfl, rfl, rfl, hmk⟩

/-- C10: alias resolution goes by falsiness, not key presence: a numeric 0 in
the torque column yields an absent torque (not the in-range value 0), a
numeric 0 in the msrp column yields an absent price, and an empty flex cell
falls through to the default S, which normalizes to Stiff. -/
theorem falsy_alias_resolution :
    (∀ (row : Row) (m : String) (ct : ClubType) (spec : ShaftSpec),
      (row.get "torque" = RawVal.num 0 → row.get "torque_degrees" = RawVal.none →
        normalize_row row m ct = .ok spec → spec.torque_degrees = none) ∧
      (row.get "msrp" = RawVal.num 0 → row.get "msrp_usd" = RawVal.none →
        row.get "price" = RawVal.none →
        normalize_row row m ct = .ok spec → spec.msrp_usd = none) ∧
      (row.get "flex" = RawVal.str "" → row.get "stiffness" = RawVal.none →
        row.get "Flex" = RawVal.none →
        resolvedFlexRaw row = "S" ∧
        (normalize_row row m ct = .ok spec → spec.flex = Flex.STIFF))) ∧
    (∃ spec, normalize_row
        [("weight", RawVal.num 62), ("torque", RawVal.num 0), ("flex", RawVal.str "")]
        "KBS" ClubType.IRON = .ok spec ∧
      spec.torque_degrees = none ∧ spec.flex = Flex.STIFF) := by
  refine ⟨?_, ⟨_, rfl, rfl, rfl⟩⟩
  intro row m ct spec
  refine ⟨?_, ?_, ?_⟩
  · intro h1 h2 hrow
    obtain ⟨fx, w, g, hf, hw, hg, hmk⟩ := normalize_row_ok_inv hrow
    have hfield := (mkShaftSpec_fields hmk).1
    rw [hfield]
    show resolvedTorque row = none
    unfold resolvedTorque
    rw [h1, h2]
    rfl
  · intro h1 h2 h3 hrow
    obtain ⟨fx, w, g, hf, hw, hg, hmk⟩ := normalize_row_ok_inv hrow
    have hfield := (mkShaftSpec_fields hmk).2.1
    rw [hfield]
    show resolvedMsrp row = none
    unfold resolvedMsrp
    rw [h1, h2, h3]
    rfl
  · intro h1 h2 h3
    have hraw : resolvedFlexRaw row = "S" := by
      unfold resolvedFlexRaw
      rw [h1, h2, h3]
      rfl
    refine ⟨hraw, fun hrow => ?_⟩
    obtain ⟨fx, w, g, hf, hw, hg, hmk⟩ := normalize_row_ok_inv hrow
    rw [hraw] at hf
    have hfx : fx = Flex.STIFF := by
      have : normalize_flex "S" = .ok Flex.STIFF := rfl
      rw [this] at hf
      injection hf with h4
      exact h4.symm
    subst hfx
    have hfield := (mkShaftSpec_fields hmk).2.2.2.2
    have : Flex.parse (rowInput row m ct Flex.STIFF w g).flex = some Flex.STIFF :=
      flex_parse_value Flex.STIFF
    rw [this] at hfield
    injection hfield with h5
    exact h5.symm

/-- C3: a row whose weight alias chain resolves to nothing parseable fails
with the missing-weight error whatever the other fields hold (provided flex
resolved, which is checked first), and a row holding nothing but a valid
weight succeeds — weight is the one row-fatal absence. -/
theorem missing_weight_fails :
    (∀ (row : Row) (m : String) (ct : ClubType),
      (resolvedWeight row = none →
        (∃ f, normalize_flex (resolvedFlexRaw row) = .ok f) →
        normalize_row row m ct = .error ("Missing weight for " ++ resolvedModel row)) ∧
      (m ≠ "" →
        ∃ spec, normalize_row [("weight", RawVal.num 62)] m ct = .ok spec)) ∧
    normalize_row [("model", RawVal.str "T"), ("weight", RawVal.str "abc")] "KBS"
      ClubType.IRON = .error ("Missing weight for " ++ "T") := by
  refine ⟨?_, rfl⟩
  intro row m ct
  constructor
  · intro hw ⟨f, hf⟩
    unfold normalize_row
    rw [hf, hw]
  · intro hm
    have hb : (m == "") = false := beq_eq_false_iff_ne.mpr hm
    have hc : constraintsOk
        (rowInput [("weight", RawVal.num 62)] m ct Flex.STIFF 62 none) = true := by
      simp only [constraintsOk, rowInput]
      rw [hb]
      rfl
    refine ⟨{ manufacturer := pyStrip m, model := "Unknown", generation := none,
              club_type := ct, flex := Flex.STIFF, weight_grams := 62,
              length_inches := none, torque_degrees := none, launch := none,
              spin := none, butt_diameter_inches := none, tip_diameter_inches := none,
              tip_stiff := none, kickpoint := none, material := "graphite",
              msrp_usd := none }, ?_⟩
    have hct : ClubType.parse
        ((rowInput [("weight", RawVal.num 62)] m ct Flex.STIFF 62 none).club_type)
        = some ct := clubType_parse_value ct
    have hfx : Flex.parse
        ((rowInput [("weight", RawVal.num 62)] m ct Flex.STIFF 62 none).flex)
        = some Flex.STIFF := flex_parse_value Flex.STIFF
    have hla : optParse LaunchProfile.parse
        ((rowInput [("weight", RawVal.num 62)] m ct Flex.STIFF 62 none).launch)
        = some none := rfl
    have hsp : optParse SpinProfile.parse
        ((rowInput [("weight", RawVal.num 62)] m ct Flex.STIFF 62 none).spin)
        = some none := rfl
    have hts : optParse TipStiffness.parse
        ((rowInput [("weight", RawVal.num 62)] m ct Flex.STIFF 62 none).tip_stiff)
        = some none := rfl
    have hkp : optParse Kickpoint.parse
        ((rowInput [("weight", RawVal.num 62)] m ct Flex.STIFF 62 none).kickpoint)
        = some none := rfl
    have hmk := mkShaftSpec_eq_some hct hfx hla hsp hts hkp hc
    unfold normalize_row
    simp only [show normalize_flex (resolvedFlexRaw [("weight", RawVal.num 62)])
        = .ok Flex.STIFF from rfl,
      show resolvedWeight [("weight", RawVal.num 62)] = some 62 from rfl,
      show resolvedGeneration [("weight", RawVal.num 62)] = .ok none from rfl, hmk]
    rfl

/-- C4: the batch normalizer processes rows independently: the returned list
is exactly the successfully normalized records in row order, and the recorded
failures are exactly the failing rows, each tagged with its index and reason;
a failing row is excluded without aborting anything. -/
theorem normalize_dataframe_independent :
    ∀ (rows : List (Nat × Row)) (m : String) (ct : ClubType),
      (normalize_dataframe rows m ct).1
        = rows.filterMap (fun p => (normalize_row p.2 m ct).toOption) ∧
      (normalize_dataframe rows m ct).2
        = rows.filterMap (fun p =>
            match normalize_row p.2 m ct with
            | .ok _ => none
            | .error e => some ("Row " ++ toString p.1 ++ ": " ++ e)) := by
  intro rows m ct
  induction rows with
  | nil => exact ⟨rfl, rfl⟩
  | cons p rest ih =>
    obtain ⟨i, r⟩ := p
    unfold normalize_dataframe
    cases h : normalize_row r m ct <;>
      simp [List.filterMap_cons, h, ih.1, ih.2, Except.toOption]

theorem dedupAux_sublist (seen : List String) (specs : List ShaftSpec) :
    List.Sublist (dedupAux seen specs) specs := by
  induction specs generalizing seen with
  | nil => simp [dedupAux]
  | cons s rest ih =>
    unfold dedupAux
    split
    · exact (ih seen).cons _
    · exact (ih _).cons₂ _

theorem mem_dedupAux {seen : List String} {specs : List ShaftSpec} {t : ShaftSpec}
    (h : t ∈ dedupAux seen specs) : t ∈ specs ∧ t.display_name ∉ seen := by
  induction specs generalizing seen with
  | nil => simp [dedupAux] at h
  | cons s rest ih =>
    unfold dedupAux at h
    split at h
    · obtain ⟨h1, h2⟩ := ih h
      exact ⟨List.mem_cons_of_mem _ h1, h2⟩
    · rename_i hmem
      rcases List.mem_cons.mp h with rfl | h2
      · exact ⟨List.mem_cons_self _ _, hmem⟩
      · obtain ⟨h3, h4⟩ := ih h2
        exact ⟨List.mem_cons_of_mem _ h3, fun hc => h4 (List.mem_cons_of_mem _ hc)⟩

theorem dedupAux_names_nodup (seen : List String) (specs : List ShaftSpec) :
    ((dedupAux seen specs).map ShaftSpec.display_name).Nodup := by
  induction specs generalizing seen with
  | nil => simp [dedupAux]
  | cons s rest ih =>
    unfold dedupAux
    split
    · exact ih seen
    · simp only [List.map_cons, List.nodup_cons]
      refine ⟨?_, ih _⟩
      intro hc
      obtain ⟨t, ht, hname⟩ := List.mem_map.mp hc
      exact (mem_dedupAux ht).2 (by rw [hname]; exact List.mem_cons_self _ _)

theorem dedupAux_complete (specs : List ShaftSpec) (seen : List String) :
    ∀ s ∈ specs, s.display_name ∈ seen ∨
      ∃ t ∈ dedupAux seen specs, t.display_name = s.display_name := by
  induction specs generalizing seen with
  | nil => intro s h; cases h
  | cons a rest ih =>
    intro s h
    unfold dedupAux
    split
    · rename_i hmem
      rcases List.mem_cons.mp h with rfl | h2
      · exact Or.inl hmem
      · exact ih seen s h2
    · rcases List.mem_cons.mp h with rfl | h2
      · exact Or.inr ⟨s, List.mem_cons_self _ _, rfl⟩
      · rcases ih (a.display_name :: seen) s h2 with hin | ⟨t, ht, hname⟩
        · rcases List.mem_cons.mp hin with heq | hin2
          · exact Or.inr ⟨a, List.mem_cons_self _ _, heq.symm⟩
          · exact Or.inl hin2
        · exact Or.inr ⟨t, List.mem_cons_of_mem _ ht, hname⟩

theorem dedupAux_first (specs : List ShaftSpec) (seen : List String) :
    ∀ t ∈ dedupAux seen specs,
      specs.find? (fun u => u.display_name == t.display_name) = some t := by
  induction specs generalizing seen with
  | nil => intro t ht; simp [dedupAux] at ht
  | cons a rest ih =>
    intro t ht
    unfold dedupAux at ht
    split at ht
    · rename_i hmem
      have h2 := (mem_dedupAux ht).2
      have hne : (a.display_name == t.display_name) = false := by
        rw [beq_eq_false_iff_ne]
        intro he
        exact h2 (he ▸ hmem)
      simp only [List.find?, hne]
      exact ih seen t ht
    · rcases List.mem_cons.mp ht with rfl | ht2
      · exact List.find?_cons_of_pos _ (by simp)
      · have h2 := (mem_dedupAux ht2).2
        have hne : (a.display_name == t.display_name) = false := by
          rw [beq_eq_false_iff_ne]
          intro he
          exact h2 (he ▸ List.mem_cons_self _ _)
        simp only [List.find?, hne]
        exact ih _ t ht2

/-- C5: the store build deduplicates by display_name keeping the first
occurrence: the result is a sublist of the input (original relative order),
its display names are pairwise distinct, every input name is represented, and
each retained record is the first record of the input bearing its name. -/
theorem dedup_first_wins :
    ∀ specs : List ShaftSpec,
      List.Sublist (dedupByDisplayName specs) specs ∧
      ((dedupByDisplayName specs).map ShaftSpec.display_name).Nodup ∧
      (∀ s ∈ specs, ∃ t ∈ dedupByDisplayName specs,
        t.display_name = s.display_name) ∧
      (∀ t ∈ dedupByDisplayName specs,
        specs.find? (fun u => u.display_name == t.display_name) = some t) := by
  intro specs
  refine ⟨dedupAux_sublist [] specs, dedupAux_names_nodup [] specs, ?_,
    dedupAux_first specs []⟩
  intro s hs
  rcases dedupAux_complete specs [] s hs with hin | h
  · exact absurd hin (List.not_mem_nil _)
  · exact h

theorem dump_load_single {s : ShaftSpec} (h : s.valid = true) :
    mkShaftSpec (dumpSpec s) = some s := by
  simp only [ShaftSpec.valid, Bool.and_eq_true] at h
  obtain ⟨⟨⟨⟨⟨⟨⟨⟨h1, h2⟩, h3⟩, h4⟩, h5⟩, h6⟩, h7⟩, h8⟩, h9⟩ := h
  have hct : ClubType.parse (dumpSpec s).club_type = some s.club_type :=
    clubType_parse_value _
  have hfx : Flex.parse (dumpSpec s).flex = some s.flex := flex_parse_value _
  have hla : optParse LaunchProfile.parse (dumpSpec s).launch = some s.launch :=
    optParse_map launchProfile_parse_value _
  have hsp : optParse SpinProfile.parse (dumpSpec s).spin = some s.spin :=
    optParse_map spinProfile_parse_value _
  have hts : optParse TipStiffness.parse (dumpSpec s).tip_stiff = some s.tip_stiff :=
    optParse_map tipStiffness_parse_value _
  have hkp : optParse Kickpoint.parse (dumpSpec s).kickpoint = some s.kickpoint :=
    optParse_map kickpoint_parse_value _
  have hc : constraintsOk (dumpSpec s) = true := by
    simp only [constraintsOk, dumpSpec, Bool.and_eq_true]
    exact ⟨⟨⟨⟨⟨⟨h2, h4⟩, h5⟩, h6⟩, h7⟩, h8⟩, h9⟩
  rw [mkShaftSpec_eq_some hct hfx hla hsp hts hkp hc]
  simp only [dumpSpec]
  rw [eq_of_beq h1, eq_of_beq h3]

/-- C6: persisting a list of records satisfying the data-model invariants and
reloading through the constructor returns the same records, field for field,
in the same order. -/
theorem save_load_roundtrip :
    ∀ specs : List ShaftSpec, (∀ s ∈ specs, s.valid = true) →
      load_database (save_database specs) = some specs := by
  intro specs
  induction specs with
  | nil => intro h; rfl
  | cons a rest ih =>
    intro h
    have ha := dump_load_single (h a (List.mem_cons_self _ _))
    have hrest := ih (fun s hs => h s (List.mem_cons_of_mem _ hs))
    simp only [load_database, save_database, List.map_cons, List.mapM_cons] at hrest ⊢
    rw [ha]
    simp only [Option.bind_eq_bind, Option.some_bind] at hrest ⊢
    rw [hrest]
    rfl

/-- C6 witness: a concrete two-record store round-trips unchanged. -/
theorem save_load_roundtrip_witness :
    (∀ s ∈ [specKBS, specFujikura], s.valid = true) ∧
      load_database (save_database [specKBS, specFujikura]) =
        some [specKBS, specFujikura] :=
  ⟨by decide, save_load_roundtrip [specKBS, specFujikura] (by decide)⟩

theorem optParse_eq_none_iff {α : Type} (p : String → Option α) (o : Option String) :
    optParse p o = none ↔ ∃ v ∈ o, p v = none := by
  cases o with
  | none => simp [optParse]
  | some s => cases h : p s <;> simp [optParse, h]

theorem constraintsOk_true_iff (i : ShaftSpecInput) :
    constraintsOk i = true ↔
      (i.manufacturer ≠ "" ∧ i.model ≠ "" ∧
       (0 < i.weight_grams ∧ i.weight_grams < 300) ∧
       (∀ l ∈ i.length_inches, 0 < l ∧ l < 60) ∧
       (∀ t ∈ i.torque_degrees, 0 ≤ t ∧ t < 15) ∧
       (∀ q ∈ i.msrp_usd, 0 ≤ q)) := by
  unfold constraintsOk
  cases i.length_inches <;> cases i.torque_degrees <;> cases i.msrp_usd <;>
    simp [optOk, and_assoc]

theorem mkShaftSpec_eq_none_iff (i : ShaftSpecInput) :
    mkShaftSpec i = none ↔
      ClubType.parse i.club_type = none ∨ Flex.parse i.flex = none ∨
      optParse LaunchProfile.parse i.launch = none ∨
      optParse SpinProfile.parse i.spin = none ∨
      optParse TipStiffness.parse i.tip_stiff = none ∨
      optParse Kickpoint.parse i.kickpoint = none ∨
      constraintsOk i = false := by
  unfold mkShaftSpec
  cases ClubType.parse i.club_type <;> cases Flex.parse i.flex <;>
    cases optParse LaunchProfile.parse i.launch <;>
    cases optParse SpinProfile.parse i.spin <;>
    cases optParse TipStiffness.parse i.tip_stiff <;>
    cases optParse Kickpoint.parse i.kickpoint <;>
      simp only [Option.bind_eq_bind, Option.none_bind, Option.some_bind,
        reduceCtorEq, false_or, true_or, or_true, iff_true]
  split <;> simp_all

/-- C1 counterexample: a whitespace-only manufacturer is empty after trimming
yet construction succeeds, because the length constraint checks the raw value
and the strip validator runs after it. -/
theorem whitespace_manufacturer_cex :
    pyStrip ({ baseInput with manufacturer := " " } : ShaftSpecInput).manufacturer
      = "" ∧
    (mkShaftSpec { baseInput with manufacturer := " " }).isSome = true := by
  decide

/-- C1 (amended): construction fails exactly when the manufacturer or model
string is empty as given (emptiness is checked before trimming, so a
whitespace-only value passes), the weight is outside the open interval
0 to 300, a present torque is outside 0 inclusive to 15, a present length is
outside the open interval 0 to 60, a present msrp is negative, or an
enum-valued field holds a string outside its value set; weight 0 and -10
fail, weight 62 succeeds. -/
theorem shaftSpec_validation_spec :
    (∀ i : ShaftSpecInput,
      mkShaftSpec i = none ↔
        (i.manufacturer = "" ∨ i.model = "" ∨
         ¬(0 < i.weight_grams ∧ i.weight_grams < 300) ∨
         (∃ l ∈ i.length_inches, ¬(0 < l ∧ l < 60)) ∨
         (∃ t ∈ i.torque_degrees, ¬(0 ≤ t ∧ t < 15)) ∨
         (∃ q ∈ i.msrp_usd, q < 0) ∨
         ClubType.parse i.club_type = none ∨
         Flex.parse i.flex = none ∨
         (∃ v ∈ i.launch, LaunchProfile.parse v = none) ∨
         (∃ v ∈ i.spin, SpinProfile.parse v = none) ∨
         (∃ v ∈ i.tip_stiff, TipStiffness.parse v = none) ∨
         (∃ v ∈ i.kickpoint, Kickpoint.parse v = none))) ∧
    mkShaftSpec { baseInput with weight_grams := 0 } = none ∧
    mkShaftSpec { baseInput with weight_grams := -10 } = none ∧
    (mkShaftSpec { baseInput with weight_grams := 62 }).isSome = true := by
  refine ⟨fun i => ?_, by decide, by decide, by decide⟩
  rw [mkShaftSpec_eq_none_iff, optParse_eq_none_iff, optParse_eq_none_iff,
    optParse_eq_none_iff, optParse_eq_none_iff]
  rw [show (constraintsOk i = false) ↔ ¬(constraintsOk i = true) from by simp,
    constraintsOk_true_iff]
  simp only [not_and_or, not_forall, Classical.not_imp, not_not, not_le, exists_prop]
  itauto

theorem matchCodeEnd_eq_some {rest : List Char} {code : String} :
    matchCodeEnd rest = some code ↔ code ∈ flexCodes ∧ rest = code.toList := by
  constructor
  · intro h
    have hp := List.find?_some h
    have hm := List.mem_of_find?_eq_some h
    refine ⟨hm, ?_⟩
    have := beq_iff_eq.mp hp
    exact this.symm
  · rintro ⟨hmem, rfl⟩
    fin_cases hmem <;> rfl

theorem take_le_takeWhile {p : Char → Bool} :
    ∀ (l : List Char) (j : Nat), j ≤ (l.takeWhile p).length →
      ∀ c ∈ l.take j, p c = true := by
  intro l
  induction l with
  | nil => intro j h c hc; simp at hc
  | cons a t ih =>
    intro j h c hc
    cases j with
    | zero => simp at hc
    | succ j2 =>
      cases hp : p a with
      | false => simp [List.takeWhile_cons, hp] at h
      | true =>
        simp only [List.takeWhile_cons, hp, if_true, List.length_cons,
          Nat.succ_le_succ_iff] at h
        rw [List.take_succ_cons] at hc
        rcases List.mem_cons.mp hc with rfl | hc2
        · exact hp
        · exact ih j2 h c hc2

theorem tryRuns_some {cs : List Char} {code : String} :
    ∀ {k : Nat}, tryRuns cs k = some code →
      code ∈ flexCodes ∧ ∃ j, 1 ≤ j ∧ j ≤ k ∧ cs.drop j = code.toList := by
  intro k
  induction k with
  | zero => intro h; simp [tryRuns] at h
  | succ k2 ih =>
    intro h
    unfold tryRuns at h
    cases hm : matchCodeEnd (cs.drop (k2 + 1)) with
    | some c2 =>
      rw [hm] at h
      injection h with h2
      subst h2
      obtain ⟨hmem, hrest⟩ := matchCodeEnd_eq_some.mp hm
      exact ⟨hmem, k2 + 1, by omega, le_refl _, hrest⟩
    | none =>
      rw [hm] at h
      obtain ⟨hmem, j, h1, h2, h3⟩ := ih h
      exact ⟨hmem, j, h1, by omega, h3⟩

theorem trySearch_some : ∀ {cs : List Char} {code : String},
    trySearch cs = some code → EndsInDigitsCode cs code := by
  intro cs
  induction cs with
  | nil => intro code h; simp [trySearch] at h
  | cons c t ih =>
    intro code h
    unfold trySearch at h
    cases ht : tryRuns (c :: t) (((c :: t).takeWhile isDigitDot).length) with
    | some c2 =>
      rw [ht] at h
      injection h with h2
      subst h2
      obtain ⟨hmem, j, hj1, hj2, hdrop⟩ := tryRuns_some ht
      refine ⟨hmem, [], (c :: t).take j, ?_, ?_, ?_⟩
      · cases j with
        | zero => omega
        | succ j2 => simp [List.take_succ_cons]
      · intro x hx
        exact take_le_takeWhile (c :: t) j hj2 x hx
      · rw [List.nil_append, ← hdrop]
        exact (List.take_append_drop j (c :: t)).symm
    | none =>
      rw [ht] at h
      obtain ⟨hmem, pre, ds, hne, hdig, heq⟩ := ih h
      exact ⟨hmem, c :: pre, ds, hne, hdig, by rw [heq]; rfl⟩

theorem codes_tw : ∀ code ∈ flexCodes, code.toList.takeWhile isDigitDot = [] := by
  decide

theorem codes_len : ∀ code ∈ flexCodes,
    code.toList.length = 1 ∨ code.toList.length = 2 := by
  decide

theorem codes_two_head : ∀ code ∈ flexCodes, code.toList.length = 2 →
    isDigitDot (code.toList.headD 'z') = false := by
  decide

theorem codes_inj : ∀ a ∈ flexCodes, ∀ b ∈ flexCodes,
    a.toList = b.toList → a = b := by
  decide

theorem flexKeys_no_digit : ∀ kv ∈ FLEX_MAP, ∀ c ∈ kv.1.toList,
    isDigitDot c = false := by
  decide

theorem tw_append {p : Char → Bool} {ds : List Char} (l : List Char)
    (h : ∀ c ∈ ds, p c = true) :
    (ds ++ l).takeWhile p = ds ++ l.takeWhile p := by
  induction ds with
  | nil => simp
  | cons d t ih =>
    have hd := h d (List.mem_cons_self _ _)
    simp only [List.cons_append, List.takeWhile_cons, hd, if_true]
    rw [ih (fun c hc => h c (List.mem_cons_of_mem _ hc))]

theorem trySearch_cons_isSome (c : Char) (t : List Char)
    (h : (trySearch t).isSome = true) : (trySearch (c :: t)).isSome = true := by
  unfold trySearch
  cases htr : tryRuns (c :: t) (((c :: t).takeWhile isDigitDot).length) with
  | some c2 => simp
  | none => simpa using h

theorem trySearch_complete : ∀ {cs : List Char} {code : String},
    EndsInDigitsCode cs code → (trySearch cs).isSome = true := by
  intro cs code h
  obtain ⟨hmem, pre, ds, hne, hdig, heq⟩ := h
  subst heq
  induction pre with
  | nil =>
    obtain ⟨d, ds2, rfl⟩ : ∃ d ds2, ds = d :: ds2 := by
      cases ds with
      | nil => exact absurd rfl hne
      | cons d ds2 => exact ⟨d, ds2, rfl⟩
    show (trySearch (d :: (ds2 ++ code.toList))).isSome = true
    have htw : (d :: (ds2 ++ code.toList)).takeWhile isDigitDot = d :: ds2 := by
      have h2 : ((d :: ds2) ++ code.toList).takeWhile isDigitDot
          = (d :: ds2) ++ code.toList.takeWhile isDigitDot := tw_append _ hdig
      rw [codes_tw code hmem] at h2
      simpa using h2
    have hdrop : (d :: (ds2 ++ code.toList)).drop (ds2.length + 1) = code.toList := by
      show ((d :: ds2) ++ code.toList).drop ((d :: ds2).length) = code.toList
      exact List.drop_left _ _
    have hmc : matchCodeEnd ((d :: (ds2 ++ code.toList)).drop (ds2.length + 1))
        = some code := by
      rw [hdrop]
      exact matchCodeEnd_eq_some.mpr ⟨hmem, rfl⟩
    unfold trySearch
    rw [htw]
    simp only [List.length_cons, tryRuns, hmc]
    rfl
  | cons p pre2 ih =>
    exact trySearch_cons_isSome p _ ih

theorem rev_decomp {cs : List Char} {code : String} (h : EndsInDigitsCode cs code) :
    ∃ d rest, isDigitDot d = true ∧
      cs.reverse = code.toList.reverse ++ d :: rest := by
  obtain ⟨hmem, pre, ds, hne, hdig, heq⟩ := h
  obtain ⟨d, t, hds⟩ : ∃ d t, ds.reverse = d :: t := by
    cases hr : ds.reverse with
    | nil =>
      have : ds = [] := by simpa using congrArg List.reverse hr
      exact absurd this hne
    | cons d t => exact ⟨d, t, rfl⟩
  refine ⟨d, t ++ pre.reverse, ?_, ?_⟩
  · apply hdig
    have : d ∈ ds.reverse := by rw [hds]; exact List.mem_cons_self _ _
    exact List.mem_reverse.mp this
  · rw [heq]
    simp [List.reverse_append, hds]

theorem endsCode_unique {cs : List Char} {a b : String}
    (ha : EndsInDigitsCode cs a) (hb : EndsInDigitsCode cs b) : a = b := by
  obtain ⟨d1, r1, hd1, e1⟩ := rev_decomp ha
  obtain ⟨d2, r2, hd2, e2⟩ := rev_decomp hb
  have hma := ha.1
  have hmb := hb.1
  have e3 : a.toList.reverse ++ d1 :: r1 = b.toList.reverse ++ d2 :: r2 := by
    rw [← e1, ← e2]
  rcases codes_len a hma with h1 | h1 <;> rcases codes_len b hmb with h2 | h2
  · obtain ⟨x, hx⟩ := List.length_eq_one.mp h1
    obtain ⟨y, hy⟩ := List.length_eq_one.mp h2
    rw [hx, hy] at e3
    simp only [List.reverse_singleton, List.cons_append, List.nil_append,
      List.cons.injEq] at e3
    apply codes_inj a hma b hmb
    rw [hx, hy, e3.1]
  · obtain ⟨x, hx⟩ := List.length_eq_one.mp h1
    obtain ⟨y, z, hyz⟩ := List.length_eq_two.mp h2
    exfalso
    rw [hx, hyz] at e3
    simp only [List.reverse_singleton, List.reverse_cons, List.reverse_nil,
      List.nil_append, List.cons_append, List.append_assoc, List.cons.injEq] at e3
    have hhead : isDigitDot y = false := by
      have h3 := codes_two_head b hmb h2
      rw [hyz] at h3
      simpa using h3
    rw [← e3.2.1] at hhead
    rw [hd1] at hhead
    cases hhead
  · obtain ⟨x, y, hxy⟩ := List.length_eq_two.mp h1
    obtain ⟨z, hz⟩ := List.length_eq_one.mp h2
    exfalso
    rw [hxy, hz] at e3
    simp only [List.reverse_singleton, List.reverse_cons, List.reverse_nil,
      List.nil_append, List.cons_append, List.append_assoc, List.cons.injEq] at e3
    have hhead : isDigitDot x = false := by
      have h3 := codes_two_head a hma h1
      rw [hxy] at h3
      simpa using h3
    rw [e3.2.1] at hhead
    rw [hd2] at hhead
    cases hhead
  · obtain ⟨x, y, hxy⟩ := List.length_eq_two.mp h1
    obtain ⟨z, w, hzw⟩ := List.length_eq_two.mp h2
    rw [hxy, hzw] at e3
    simp only [List.reverse_cons, List.reverse_nil, List.nil_append,
      List.cons_append, List.append_assoc, List.cons.injEq] at e3
    apply codes_inj a hma b hmb
    rw [hxy, hzw, e3.1, e3.2.1]

theorem trySearch_eq_some_iff {cs : List Char} {code : String} :
    trySearch cs = some code ↔ EndsInDigitsCode cs code := by
  constructor
  · exact trySearch_some
  · intro h
    obtain ⟨c2, hc2⟩ := Option.isSome_iff_exists.mp (trySearch_complete h)
    rw [endsCode_unique (trySearch_some hc2) h] at hc2
    exact hc2

theorem ends_lookup_none {s : String} {code : String}
    (h : EndsInDigitsCode s.toList code) : List.lookup s FLEX_MAP = none := by
  cases hl : List.lookup s FLEX_MAP with
  | none => rfl
  | some f =>
    exfalso
    have hmem := lookup_mem hl
    obtain ⟨hc, pre, ds, hne, hdig, heq⟩ := h
    obtain ⟨d, hd⟩ : ∃ d, d ∈ ds := by
      cases ds with
      | nil => exact absurd rfl hne
      | cons d t => exact ⟨d, List.mem_cons_self _ _⟩
    have hdin : d ∈ s.toList := by
      rw [heq]
      simp only [List.append_assoc, List.mem_append]
      exact Or.inr (Or.inl hd)
    have h2 := flexKeys_no_digit (s, f) hmem d hdin
    rw [hdig d hd] at h2
    cases h2

/-- C2: for every string whose cleaned form (strip, lowercase, spaces
removed) is a key of the flex alias table, normalize_flex returns the mapped
canonical value; for every string whose cleaned form ends in a nonempty run
of digits or dots followed by one of the codes s, r, x, tx, xs, a, l, it
returns the value the alias table assigns that trailing code; and for every
other string it returns the error rather than a silent default.  The spec
examples evaluate as claimed. -/
theorem normalize_flex_spec :
    (∀ raw f, List.lookup (cleanFlex raw) FLEX_MAP = some f →
        normalize_flex raw = .ok f) ∧
    (∀ raw code f, EndsInDigitsCode (cleanFlex raw).toList code →
        List.lookup code FLEX_MAP = some f → normalize_flex raw = .ok f) ∧
    (∀ raw, List.lookup (cleanFlex raw) FLEX_MAP = none →
        (∀ code, ¬ EndsInDigitsCode (cleanFlex raw).toList code) →
        normalize_flex raw = .error ("Cannot normalize flex: " ++ raw)) ∧
    normalize_flex "6.0S" = .ok Flex.STIFF ∧
    normalize_flex "60X" = .ok Flex.X_STIFF ∧
    normalize_flex "banana" = .error ("Cannot normalize flex: " ++ "banana") := by
  refine ⟨?_, ?_, ?_, rfl, rfl, rfl⟩
  · intro raw f h
    simp only [normalize_flex, h]
  · intro raw code f hdec hlook
    have hnone : List.lookup (cleanFlex raw) FLEX_MAP = none := ends_lookup_none hdec
    have hsearch : trySearch (cleanFlex raw).toList = some code :=
      trySearch_eq_some_iff.mpr hdec
    simp only [normalize_flex, hnone, hsearch, hlook]
    rfl
  · intro raw h1 h2
    cases hs : trySearch (cleanFlex raw).toList with
    | some c2 => exact absurd (trySearch_some hs) (h2 c2)
    | none => simp only [normalize_flex, h1, hs]


end GolfShaft
